import Mathlib

/-!
# Verification of the Watson mixture model fitting code

A shallow embedding of the algorithmic core of `watson.py`: the confluent
hypergeometric series evaluator `kummer`, the three closed-form concentration
bound estimators `lower_bound`, `bound`, `upper_bound`, the maximization-step
mixing-weight update, the golden-spiral initializer angles, the convergence
check and the EM loop skeleton, the pre-loop validation behaviour of
`wmm_fit`, and the seeded-randomness structure of the `random` initializer.

Python floating-point scalars are modelled as real numbers; the numpy
pseudo-random generator and the per-iteration EM update (which reads no
randomness in the source) are modelled as explicit deterministic parameters.
-/

noncomputable section

open Real

/-- Loop body of `kummer` from `watson.py`, with explicit fuel standing for
the unbounded `while abs(term) > tol` loop (the source imposes no iteration
cap; `none` marks fuel exhaustion).  State: current `a`, `b`, `term`,
accumulator `f`, and 1-based term counter `j`.  Each pass increments `j`,
`a`, `b`, multiplies `term` by `a*kappa/b/j` and adds it to `f`, exactly as
the source mutates its locals. -/
def kummerGo (kappa tol : ℝ) : ℕ → ℝ → ℝ → ℝ → ℝ → ℕ → Option (ℝ × ℕ)
  | 0, _, _, _, _, _ => none
  | fuel + 1, a, b, term, f, j =>
    if |term| > tol then
      let j2 := j + 1
      let a2 := a + 1
      let b2 := b + 1
      let term2 := term * (a2 * kappa / b2 / (j2 : ℝ))
      kummerGo kappa tol fuel a2 b2 term2 (f + term2) j2
    else some (f, j)

/-- The `kummer` series evaluator from `watson.py`: starts from
`term = a*kappa/b`, `f = 1 + term`, `j = 1`, then runs the loop; returns the
accumulated value together with the number of terms summed (the
`return_iter` variant of the source). -/
def kummer (a b kappa tol : ℝ) (fuel : ℕ) : Option (ℝ × ℕ) :=
  kummerGo kappa tol fuel a b (a * kappa / b) (1 + a * kappa / b) 1

/-- C7: for every shape pair `a`, `b` and every positive tolerance, the
series evaluator called with `kappa = 0` returns exactly `1` (after summing
one term). -/
theorem kummer_kappa_zero (a b tol : ℝ) (fuel : ℕ) (hf : 1 ≤ fuel)
    (ht : 0 < tol) : kummer a b 0 tol fuel = some (1, 1) := by
  obtain ⟨m, rfl⟩ : ∃ m, fuel = m + 1 := ⟨fuel - 1, (Nat.succ_pred_eq_of_pos hf).symm⟩
  have hterm : a * 0 / b = 0 := by simp
  have hcond : ¬ |(0 : ℝ)| > tol := by
    simp only [abs_zero, not_lt]
    linarith
  simp only [kummer, hterm, add_zero, kummerGo, hcond, if_false]

/-- Witness for C7 at `a = 1/2`, `b = 3/2`, `tol = 1/1000`, `fuel = 10`. -/
theorem kummer_kappa_zero_witness :
    kummer (1/2) (3/2) 0 (1/1000) 10 = some (1, 1) :=
  kummer_kappa_zero (1/2) (3/2) (1/1000) 10 (by norm_num) (by norm_num)

/-- C10: the first-order term `a*kappa/b` is added unconditionally before any
tolerance test; whenever its magnitude is at or below the tolerance the
evaluator returns `1 + a*kappa/b` immediately, with one term summed. -/
theorem kummer_first_term_unconditional (a b kappa tol : ℝ) (fuel : ℕ)
    (hf : 1 ≤ fuel) (h : |a * kappa / b| ≤ tol) :
    kummer a b kappa tol fuel = some (1 + a * kappa / b, 1) := by
  obtain ⟨m, rfl⟩ : ∃ m, fuel = m + 1 := ⟨fuel - 1, (Nat.succ_pred_eq_of_pos hf).symm⟩
  have hcond : ¬ |a * kappa / b| > tol := not_lt.mpr h
  simp only [kummer, kummerGo, hcond, if_false]

/-- Witness for C10 at `a = 1/2`, `b = 1`, `kappa = 1`, `tol = 1`: the first
term is `1/2 ≠ 0`, below the tolerance, and the result is `3/2`, not `1`. -/
theorem kummer_first_term_unconditional_witness :
    kummer (1/2) 1 1 1 5 = some (1 + (1/2) * 1 / 1, 1) ∧
      (1 : ℝ) + (1/2) * 1 / 1 ≠ 1 :=
  ⟨kummer_first_term_unconditional (1/2) 1 1 1 5 (by norm_num)
      (by rw [abs_of_nonneg] <;> norm_num), by norm_num⟩

/-- Lower closed-form concentration estimate `lower_bound` from `watson.py`
(eq. 3.7 of the cited reference). -/
def lower_bound (a c r : ℝ) : ℝ :=
  (r * c - a) / (r * (1 - r)) * (1 + (1 - r) / (c - a))

/-- Central closed-form concentration estimate `bound` from `watson.py`
(eq. 3.8 of the cited reference). -/
def bound (a c r : ℝ) : ℝ :=
  (r * c - a) / (2 * r * (1 - r)) *
    (1 + Real.sqrt (1 + 4 * (c + 1) * r * (1 - r) / (a * (c - a))))

/-- Upper closed-form concentration estimate `upper_bound` from `watson.py`
(eq. 3.9 of the cited reference). -/
def upper_bound (a c r : ℝ) : ℝ :=
  (r * c - a) / (r * (1 - r)) * (1 + r / a)

/-- C3: for every `r` with `0 < r < 0.99` and shape parameters `c > a > 0`,
the three estimators are ordered: `lower_bound ≤ bound ≤ upper_bound`. -/
theorem bound_estimators_ordered (a c r : ℝ) (hr0 : 0 < r) (hr1 : r < 0.99)
    (ha : 0 < a) (hac : a < c) :
    lower_bound a c r ≤ bound a c r ∧ bound a c r ≤ upper_bound a c r := by
  have h99 : (0.99 : ℝ) < 1 := by norm_num
  have hs : 0 < 1 - r := by linarith
  have hca : 0 < c - a := by linarith
  have hrne : r ≠ 0 := ne_of_gt hr0
  have hsne : (1 - r) ≠ 0 := ne_of_gt hs
  have hane : a ≠ 0 := ne_of_gt ha
  have hcane : (c - a) ≠ 0 := ne_of_gt hca
  set Q : ℝ := 1 + 4 * (c + 1) * r * (1 - r) / (a * (c - a)) with hQdef
  set x : ℝ := Real.sqrt Q with hxdef
  clear_value x
  clear_value Q
  have hQ0 : 0 ≤ Q := by
    have h1 : 0 ≤ 4 * (c + 1) * r * (1 - r) :=
      mul_nonneg (mul_nonneg (mul_nonneg (by norm_num) (by linarith))
        (le_of_lt hr0)) (le_of_lt hs)
    have h2 : 0 < a * (c - a) := mul_pos ha hca
    have h3 := div_nonneg h1 (le_of_lt h2)
    rw [hQdef]
    linarith
  have hx0 : 0 ≤ x := by
    rw [hxdef]
    exact Real.sqrt_nonneg Q
  have key2 : (1 + 2 * r / a) ^ 2 - Q
      = 4 * r * (1 + a) * (r * c - a) / (a ^ 2 * (c - a)) := by
    rw [hQdef]
    field_simp
    ring
  have key1 : (1 + 2 * (1 - r) / (c - a)) ^ 2 - Q
      = -(4 * (1 - r) * (c + 1 - a) * (r * c - a)) / (a * (c - a) ^ 2) := by
    rw [hQdef]
    field_simp
    ring
  have diffU : upper_bound a c r - bound a c r
      = (r * c - a) / (2 * r * (1 - r)) * ((1 + 2 * r / a) - x) := by
    simp only [upper_bound, bound]
    rw [← hQdef, ← hxdef]
    field_simp
    ring
  have diffL : bound a c r - lower_bound a c r
      = (r * c - a) / (2 * r * (1 - r)) * (x - (1 + 2 * (1 - r) / (c - a))) := by
    simp only [bound, lower_bound]
    rw [← hQdef, ← hxdef]
    field_simp
    ring
  have hupos : 0 ≤ 1 + 2 * r / a := by
    have h1 : 0 ≤ 2 * r / a := div_nonneg (by linarith) (le_of_lt ha)
    linarith
  have hlpos : 0 ≤ 1 + 2 * (1 - r) / (c - a) := by
    have h1 : 0 ≤ 2 * (1 - r) / (c - a) := div_nonneg (by linarith) (le_of_lt hca)
    linarith
  rcases le_or_lt 0 (r * c - a) with hD | hD
  · have hfac : 0 ≤ (r * c - a) / (2 * r * (1 - r)) :=
      div_nonneg hD (by positivity)
    constructor
    · have hQge : (1 + 2 * (1 - r) / (c - a)) ^ 2 ≤ Q := by
        have h1 : -(4 * (1 - r) * (c + 1 - a) * (r * c - a)) / (a * (c - a) ^ 2) ≤ 0 := by
          apply div_nonpos_of_nonpos_of_nonneg
          · exact neg_nonpos_of_nonneg (mul_nonneg (mul_nonneg
              (mul_nonneg (by norm_num) (by linarith)) (by linarith)) hD)
          · positivity
        linarith [key1]
      have hxge : 1 + 2 * (1 - r) / (c - a) ≤ x := by
        rw [hxdef]
        calc 1 + 2 * (1 - r) / (c - a)
            = Real.sqrt ((1 + 2 * (1 - r) / (c - a)) ^ 2) := (Real.sqrt_sq hlpos).symm
          _ ≤ Real.sqrt Q := Real.sqrt_le_sqrt hQge
      have h0 := mul_nonneg hfac (sub_nonneg.mpr hxge)
      linarith [diffL]
    · have hQle : Q ≤ (1 + 2 * r / a) ^ 2 := by
        have h1 : 0 ≤ 4 * r * (1 + a) * (r * c - a) / (a ^ 2 * (c - a)) := by
          apply div_nonneg
          · exact mul_nonneg (mul_nonneg (mul_nonneg (by norm_num)
              (le_of_lt hr0)) (by linarith)) hD
          · positivity
        linarith [key2]
      have hxle : x ≤ 1 + 2 * r / a := by
        rw [hxdef]
        calc Real.sqrt Q ≤ Real.sqrt ((1 + 2 * r / a) ^ 2) := Real.sqrt_le_sqrt hQle
          _ = 1 + 2 * r / a := Real.sqrt_sq hupos
      have h0 := mul_nonneg hfac (sub_nonneg.mpr hxle)
      linarith [diffU]
  · have hfac : (r * c - a) / (2 * r * (1 - r)) ≤ 0 :=
      div_nonpos_of_nonpos_of_nonneg (le_of_lt hD) (by positivity)
    constructor
    · have hQle : Q ≤ (1 + 2 * (1 - r) / (c - a)) ^ 2 := by
        have h1 : 0 ≤ -(4 * (1 - r) * (c + 1 - a) * (r * c - a)) / (a * (c - a) ^ 2) := by
          apply div_nonneg
          · exact neg_nonneg.mpr (mul_nonpos_of_nonneg_of_nonpos (mul_nonneg
              (mul_nonneg (by norm_num) (by linarith)) (by linarith)) (le_of_lt hD))
          · positivity
        linarith [key1]
      have hxle : x ≤ 1 + 2 * (1 - r) / (c - a) := by
        rw [hxdef]
        calc Real.sqrt Q ≤ Real.sqrt ((1 + 2 * (1 - r) / (c - a)) ^ 2) :=
              Real.sqrt_le_sqrt hQle
          _ = 1 + 2 * (1 - r) / (c - a) := Real.sqrt_sq hlpos
      have h0 : 0 ≤ (r * c - a) / (2 * r * (1 - r)) * (x - (1 + 2 * (1 - r) / (c - a))) := by
        have hp := mul_nonneg (neg_nonneg.mpr hfac) (sub_nonneg.mpr hxle)
        have heq : (r * c - a) / (2 * r * (1 - r)) * (x - (1 + 2 * (1 - r) / (c - a)))
            = -((r * c - a) / (2 * r * (1 - r))) * ((1 + 2 * (1 - r) / (c - a)) - x) := by
          ring
        rw [heq]
        exact hp
      linarith [diffL]
    · have hQge : (1 + 2 * r / a) ^ 2 ≤ Q := by
        have h1 : 4 * r * (1 + a) * (r * c - a) / (a ^ 2 * (c - a)) ≤ 0 := by
          apply div_nonpos_of_nonpos_of_nonneg
          · exact mul_nonpos_of_nonneg_of_nonpos (mul_nonneg (mul_nonneg
              (by norm_num) (le_of_lt hr0)) (by linarith)) (le_of_lt hD)
          · positivity
        linarith [key2]
      have hxge : 1 + 2 * r / a ≤ x := by
        rw [hxdef]
        calc 1 + 2 * r / a = Real.sqrt ((1 + 2 * r / a) ^ 2) := (Real.sqrt_sq hupos).symm
          _ ≤ Real.sqrt Q := Real.sqrt_le_sqrt hQge
      have h0 : 0 ≤ (r * c - a) / (2 * r * (1 - r)) * ((1 + 2 * r / a) - x) := by
        have hp := mul_nonneg (neg_nonneg.mpr hfac) (sub_nonneg.mpr hxge)
        have heq : (r * c - a) / (2 * r * (1 - r)) * ((1 + 2 * r / a) - x)
            = -((r * c - a) / (2 * r * (1 - r))) * (x - (1 + 2 * r / a)) := by
          ring
        rw [heq]
        exact hp
      linarith [diffU]

/-- Witness for C3 at `a = 1/2`, `c = 3/2`, `r = 1/2`. -/
theorem bound_estimators_ordered_witness :
    lower_bound (1/2) (3/2) (1/2) ≤ bound (1/2) (3/2) (1/2) ∧
      bound (1/2) (3/2) (1/2) ≤ upper_bound (1/2) (3/2) (1/2) :=
  bound_estimators_ordered (1/2) (3/2) (1/2) (by norm_num) (by norm_num)
    (by norm_num) (by norm_num)

/-- The eigenvalue-ratio clamp applied in `m_step` of `watson.py` just before
the bound estimators are invoked: `r = 0.99 if r > 0.999 else r`. -/
def clamp_r (r : ℝ) : ℝ := if r > 0.999 then 0.99 else r

/-- C5 counterexample: at eigenvalue ratio `r = 0.995` the clamp passes the
ratio through unchanged, so the value handed to the bound estimators is
strictly greater than `0.99`. -/
theorem clamp_r_exceeds_counterexample :
    clamp_r 0.995 = 0.995 ∧ (0.99 : ℝ) < clamp_r 0.995 := by
  have h : clamp_r 0.995 = 0.995 := by
    rw [clamp_r, if_neg (by norm_num)]
  exact ⟨h, by rw [h]; norm_num⟩

/-- C5 amended: the ratio passed to the bound estimators never exceeds
`0.999`; it is replaced by `0.99` exactly when it exceeds `0.999` and is
passed through unchanged otherwise (so ratios in `(0.99, 0.999]` reach the
estimators above `0.99`). -/
theorem clamp_r_spec (r : ℝ) :
    clamp_r r ≤ 0.999 ∧ (0.999 < r → clamp_r r = 0.99) ∧
      (r ≤ 0.999 → clamp_r r = r) := by
  unfold clamp_r
  split_ifs with h
  · exact ⟨by norm_num, fun _ => rfl, fun h2 => absurd h (not_lt.mpr h2)⟩
  · exact ⟨not_lt.mp h, fun h2 => absurd h2 h, fun _ => rfl⟩

/-- Witness for C5 amended at `r = 1`. -/
theorem clamp_r_spec_witness : clamp_r 1 = 0.99 :=
  (clamp_r_spec 1).2.1 (by norm_num)

/-- The mixing-weight update of `m_step` in `watson.py`:
`pi = np.sum(beta, axis=0)/N`, the column means of the responsibility
matrix `beta`. -/
def m_step_pi (N k : ℕ) (beta : Fin N → Fin k → ℝ) (j : Fin k) : ℝ :=
  (∑ i, beta i j) / (N : ℝ)

/-- C4: whenever the responsibility matrix has `N ≥ 1` rows, each row
summing to 1 with non-negative entries, the updated mixing weights are
non-negative and sum to 1. -/
theorem m_step_pi_simplex (N k : ℕ) (beta : Fin N → Fin k → ℝ)
    (hN : 1 ≤ N) (hrow : ∀ i, ∑ j, beta i j = 1)
    (hnn : ∀ i j, 0 ≤ beta i j) :
    (∑ j, m_step_pi N k beta j) = 1 ∧ ∀ j, 0 ≤ m_step_pi N k beta j := by
  have hN0 : (N : ℝ) ≠ 0 := Nat.cast_ne_zero.mpr (by omega)
  constructor
  · simp only [m_step_pi]
    rw [← Finset.sum_div, Finset.sum_comm]
    simp only [hrow]
    rw [Finset.sum_const, Finset.card_univ, Fintype.card_fin, nsmul_eq_mul, mul_one]
    exact div_self hN0
  · intro j
    exact div_nonneg (Finset.sum_nonneg fun i _ => hnn i j) (Nat.cast_nonneg N)

/-- Witness for C4 with the uniform `2 × 2` responsibility matrix. -/
theorem m_step_pi_simplex_witness :
    (∑ j, m_step_pi 2 2 (fun _ _ => (1/2 : ℝ)) j) = 1 ∧
      ∀ j, 0 ≤ m_step_pi 2 2 (fun _ _ => (1/2 : ℝ)) j :=
  m_step_pi_simplex 2 2 (fun _ _ => (1/2 : ℝ)) (by norm_num)
    (fun _ => by norm_num [Fin.sum_univ_two]) (fun _ _ => by norm_num)

/-- Polar angle of the i-th direction in `golden_spiral_init` of
`watson.py`: `phi = arccos(1 - 2*(i+0.5)/(2*k))`. -/
def spiral_phi (k i : ℕ) : ℝ :=
  Real.arccos (1 - 2 * ((i : ℝ) + 0.5) / (2 * (k : ℝ)))

/-- Azimuth of the i-th direction in `golden_spiral_init`:
`theta = pi*(1+sqrt(5))*(i+0.5)`. -/
def spiral_theta (i : ℕ) : ℝ :=
  Real.pi * (1 + Real.sqrt 5) * ((i : ℝ) + 0.5)

/-- The i-th mean direction produced by `golden_spiral_init`, in Cartesian
coordinates `(cos(theta)*sin(phi), sin(theta)*sin(phi), cos(phi))`. -/
def golden_spiral_mu (k i : ℕ) : ℝ × ℝ × ℝ :=
  (Real.cos (spiral_theta i) * Real.sin (spiral_phi k i),
   Real.sin (spiral_theta i) * Real.sin (spiral_phi k i),
   Real.cos (spiral_phi k i))

/-- The polar angle the claim attributes to the initializer, written from
the spec words for comparison: `arccos(1 - 2*(i+0.5)/k)`. -/
def spiral_phi_spec (k i : ℕ) : ℝ :=
  Real.arccos (1 - 2 * ((i : ℝ) + 0.5) / (k : ℝ))

/-- C2 counterexample: at `k = 1`, `i = 0` the code places the direction at
polar angle `arccos(1/2) = pi/3` while the claim prescribes
`arccos(0) = pi/2`; the two differ. -/
theorem spiral_phi_ne_spec_counterexample :
    spiral_phi 1 0 ≠ spiral_phi_spec 1 0 := by
  have h1 : spiral_phi 1 0 = Real.arccos (1/2) := by
    simp only [spiral_phi]
    norm_num
  have h2 : spiral_phi_spec 1 0 = Real.arccos 0 := by
    simp only [spiral_phi_spec]
    norm_num
  have h3 : Real.arccos (1/2) = Real.pi / 3 := by
    rw [← Real.cos_pi_div_three]
    exact Real.arccos_cos (by positivity) (by linarith [Real.pi_pos])
  rw [h1, h2, h3, Real.arccos_zero]
  intro h
  have hpi := Real.pi_pos
  linarith

/-- C2 amended: for `1 ≤ k` and `i < k`, the i-th golden-spiral direction
has z-coordinate `cos(phi) = 1 - (i+0.5)/k`, which is strictly positive:
the polar angles sweep only `(0, pi/2)` and every direction lies in the
open upper hemisphere, not over the whole sphere. -/
theorem golden_spiral_mu_upper_hemisphere (k i : ℕ) (hk : 1 ≤ k)
    (hik : i < k) :
    (golden_spiral_mu k i).2.2 = 1 - ((i : ℝ) + 0.5) / (k : ℝ) ∧
      0 < (golden_spiral_mu k i).2.2 := by
  have hkR : (1 : ℝ) ≤ (k : ℝ) := by exact_mod_cast hk
  have hiR : (i : ℝ) + 1 ≤ (k : ℝ) := by exact_mod_cast hik
  have hk0 : (0 : ℝ) < (k : ℝ) := by linarith
  have hi0 : (0 : ℝ) ≤ (i : ℝ) := Nat.cast_nonneg i
  have harg : 1 - 2 * ((i : ℝ) + 0.5) / (2 * (k : ℝ))
      = 1 - ((i : ℝ) + 0.5) / (k : ℝ) := by
    field_simp
    ring
  have hfrac0 : 0 < ((i : ℝ) + 0.5) / (k : ℝ) :=
    div_pos (by linarith) hk0
  have hfrac1 : ((i : ℝ) + 0.5) / (k : ℝ) < 1 := by
    rw [div_lt_one hk0]
    linarith
  have hcos : (golden_spiral_mu k i).2.2 = 1 - ((i : ℝ) + 0.5) / (k : ℝ) := by
    show Real.cos (spiral_phi k i) = _
    rw [spiral_phi, harg]
    exact Real.cos_arccos (by linarith) (by linarith)
  exact ⟨hcos, by rw [hcos]; linarith⟩

/-- Witness for C2 amended at `k = 2`, `i = 0`. -/
theorem golden_spiral_mu_upper_hemisphere_witness :
    (golden_spiral_mu 2 0).2.2 = 1 - (((0 : ℕ) : ℝ) + 0.5) / ((2 : ℕ) : ℝ) ∧
      0 < (golden_spiral_mu 2 0).2.2 :=
  golden_spiral_mu_upper_hemisphere 2 0 (by norm_num) (by norm_num)

/-- The `convergence` check of `wmm_fit` in `watson.py` (progress printing
elided): returns the converged iteration index, or `-1` to continue.  With
`iter > 0` and relative log-likelihood change below `tol`, it returns `iter`
on a strictly positive change and `iter - 1` (rolling back the final
update) otherwise; once `iter >= maxiter - 1` it returns `iter`. -/
def convergence (llh : ℕ → ℝ) (iter maxiter : ℕ) (tol : ℝ) : ℤ :=
  if 0 < iter ∧ (llh iter - llh (iter - 1)) / |llh (iter - 1)| < tol then
    if 0 < llh iter - llh (iter - 1) then (iter : ℤ) else (iter : ℤ) - 1
  else if (maxiter : ℤ) - 1 ≤ (iter : ℤ) then (iter : ℤ)
  else -1

/-- C1 counterexample: with constant log-likelihood `-2` the change at
iteration 1 is exactly zero and the relative change `0` is below tolerance
`1/2`; the claim says convergence is marked at iteration 1, but the check
rolls back and returns iteration 0. -/
theorem convergence_zero_change_counterexample :
    ((fun _ : ℕ => (-2 : ℝ)) 1 - (fun _ : ℕ => (-2 : ℝ)) 0 = 0) ∧
      convergence (fun _ : ℕ => (-2 : ℝ)) 1 10 (1/2) = 0 := by
  constructor
  · norm_num
  · rw [convergence, if_pos ⟨by norm_num, by norm_num⟩, if_neg (by norm_num)]
    norm_num

/-- C1 amended: at iteration `iter > 0` with relative log-likelihood change
below tolerance, the check marks convergence at `iter` exactly when the
change is strictly positive, and rolls back to `iter - 1` whenever the
change is zero or negative. -/
theorem convergence_rollback (llh : ℕ → ℝ) (iter maxiter : ℕ) (tol : ℝ)
    (h0 : 0 < iter)
    (hrel : (llh iter - llh (iter - 1)) / |llh (iter - 1)| < tol) :
    (0 < llh iter - llh (iter - 1) →
        convergence llh iter maxiter tol = (iter : ℤ)) ∧
      (llh iter - llh (iter - 1) ≤ 0 →
        convergence llh iter maxiter tol = (iter : ℤ) - 1) := by
  constructor
  · intro hpos
    rw [convergence, if_pos ⟨h0, hrel⟩, if_pos hpos]
  · intro hnp
    rw [convergence, if_pos ⟨h0, hrel⟩, if_neg (not_lt.mpr hnp)]

/-- Witness for C1 amended: log-likelihood rises from `-2` to `-1` at
iteration 1, relative change `1/2` below tolerance `1`, marked at 1. -/
theorem convergence_rollback_witness :
    convergence (fun n => if n = 0 then (-2 : ℝ) else -1) 1 10 1 = ((1 : ℕ) : ℤ) :=
  (convergence_rollback (fun n => if n = 0 then (-2 : ℝ) else -1) 1 10 1
      (by norm_num) (by norm_num)).1 (by norm_num)

/-- The `while converged < 0` loop skeleton of `wmm_fit`: starting at
`iter = 0`, each pass runs one E/M step (whose effect on the log-likelihood
history is summarized by `llh`), calls `convergence`, and increments `iter`.
`fuel` bounds the number of passes modelled; `-2` marks fuel exhaustion and
never occurs with fuel `maxiter`. -/
def emLoop (llh : ℕ → ℝ) (maxiter : ℕ) (tol : ℝ) : ℕ → ℕ → ℤ
  | 0, _ => -2
  | fuel + 1, iter =>
    if convergence llh iter maxiter tol < 0 then
      emLoop llh maxiter tol fuel (iter + 1)
    else convergence llh iter maxiter tol

/-- The convergence check never reports an index above the current
iteration. -/
theorem convergence_le_iter (llh : ℕ → ℝ) (iter maxiter : ℕ) (tol : ℝ) :
    convergence llh iter maxiter tol ≤ (iter : ℤ) := by
  rw [convergence]
  split_ifs with h1 h2 h3
  · omega
  · omega
  · omega
  · omega

/-- At or beyond the iteration cap the convergence check reports a
non-negative index. -/
theorem convergence_cap_nonneg (llh : ℕ → ℝ) (iter maxiter : ℕ) (tol : ℝ)
    (h : (maxiter : ℤ) - 1 ≤ (iter : ℤ)) :
    0 ≤ convergence llh iter maxiter tol := by
  rw [convergence]
  split_ifs with h1 h2
  · omega
  · rcases h1 with ⟨hi, -⟩
    omega
  · omega

/-- With exactly `maxiter - iter` passes of fuel remaining, the loop
terminates with a converged index in `[0, maxiter)`. -/
theorem emLoop_bounds (llh : ℕ → ℝ) (maxiter : ℕ) (tol : ℝ) :
    ∀ fuel iter, iter + fuel = maxiter → iter < maxiter →
      0 ≤ emLoop llh maxiter tol fuel iter ∧
        emLoop llh maxiter tol fuel iter < (maxiter : ℤ) := by
  intro fuel
  induction fuel with
  | zero =>
    intro iter h1 h2
    exact absurd h2 (by omega)
  | succ fuel ih =>
    intro iter h1 h2
    simp only [emLoop]
    by_cases hc : convergence llh iter maxiter tol < 0
    · rw [if_pos hc]
      by_cases hlast : iter + 1 < maxiter
      · exact ih (iter + 1) (by omega) hlast
      · exfalso
        have hcap := convergence_cap_nonneg llh iter maxiter tol (by omega)
        omega
    · rw [if_neg hc]
      push_neg at hc
      refine ⟨hc, lt_of_le_of_lt (convergence_le_iter llh iter maxiter tol) ?_⟩
      exact_mod_cast h2

/-- C8: with `maxiter ≥ 1` the EM loop started at iteration 0 terminates
within `maxiter` passes, returning a converged index in `[0, maxiter)` (so
the trimmed history `llh[:converged+1]` is well-defined and no exception
arises); and whenever the cap is reached without the tolerance branch
firing, the check reports the current iteration (MAX_ITER_REACHED). -/
theorem em_loop_terminates (llh : ℕ → ℝ) (maxiter : ℕ) (tol : ℝ)
    (h : 1 ≤ maxiter) :
    (0 ≤ emLoop llh maxiter tol maxiter 0 ∧
        emLoop llh maxiter tol maxiter 0 < (maxiter : ℤ)) ∧
      ∀ iter, maxiter - 1 ≤ iter →
        ¬(0 < iter ∧ (llh iter - llh (iter - 1)) / |llh (iter - 1)| < tol) →
        convergence llh iter maxiter tol = (iter : ℤ) := by
  constructor
  · exact emLoop_bounds llh maxiter tol maxiter 0 (by omega) (by omega)
  · intro iter hcap hnot
    rw [convergence, if_neg hnot, if_pos (by omega : (maxiter : ℤ) - 1 ≤ (iter : ℤ))]

/-- Witness for C8 at `maxiter = 1` with constant log-likelihood. -/
theorem em_loop_terminates_witness :
    0 ≤ emLoop (fun _ => (0 : ℝ)) 1 1 1 0 ∧
      emLoop (fun _ => (0 : ℝ)) 1 1 1 0 < ((1 : ℕ) : ℤ) :=
  (em_loop_terminates (fun _ => (0 : ℝ)) 1 1 (by norm_num)).1

/-- The `init` argument of `wmm_fit`: an explicit parameter dict, the
string `"spiral"`, the string `"random"`, or nothing (inferred default). -/
inductive InitArg where
  | dict
  | spiral
  | random
  | unspecified

/-- Pre-loop behaviour of `wmm_fit` in `watson.py`: returns `true` when the
pre-loop phase raises nothing and the EM loop is entered.  No branch
performs an explicit validation of `k`; the failures that can occur before
the loop are the `assert p == 3` guarding the explicit `"spiral"`
initializer, and, for `k < 0`, the numpy `ValueError` raised when
`random_init` allocates `np.random.normal(size=(k, p))` or
`golden_spiral_init` allocates `np.ones(k)` (for `k = 0` these produce
empty arrays and raise nothing).  The explicit parameter dict reads no
`k`-dependent sizes before the loop. -/
def wmm_fit_precheck (p : ℕ) (k : ℤ) (init : InitArg) : Bool :=
  match init with
  | InitArg.dict => true
  | InitArg.spiral => decide (p = 3) && decide (0 ≤ k)
  | InitArg.random => decide (0 ≤ k)
  | InitArg.unspecified => decide (0 ≤ k)

/-- C6 counterexample: `wmm_fit` called with `k = 0 ≤ 0` (random
initialization, 3-dimensional data) passes the whole pre-loop phase without
raising any validation error and enters the EM loop, contrary to the
claimed k-validation. -/
theorem wmm_fit_precheck_k_counterexample :
    wmm_fit_precheck 3 0 InitArg.random = true ∧ (0 : ℤ) ≤ 0 :=
  ⟨rfl, le_refl 0⟩

/-- C6 amended: `wmm_fit` never validates `k` explicitly.  The pre-loop
phase succeeds — and the EM loop is entered — exactly for the explicit
parameter dict (any `k`), for random or default initialization with
`k ≥ 0`, and for the explicit spiral initializer with `p = 3` and `k ≥ 0`.
In particular `k = 0` raises nothing, while `k < 0` fails pre-loop only
through the numpy `ValueError` of a negative-size array allocation inside
the initializer, not through a local input-validation check. -/
theorem wmm_fit_precheck_spec (p : ℕ) (k : ℤ) (init : InitArg) :
    wmm_fit_precheck p k init = true ↔
      (init = InitArg.dict ∨
        ((init = InitArg.random ∨ init = InitArg.unspecified) ∧ 0 ≤ k) ∨
        (init = InitArg.spiral ∧ p = 3 ∧ 0 ≤ k)) := by
  cases init <;> simp [wmm_fit_precheck]

/-- Global numpy PRNG state as reset by `np.random.seed`: the seed of the
current stream and the position within it.  The deterministic numpy draw
stream itself is the `gauss` parameter below (value drawn at a given
position of a given seeded stream). -/
structure RngState where
  seed : ℕ
  pos : ℕ

/-- `np.random.seed(seed)` at the top of `wmm_fit`: discards whatever
global state was left by earlier computation. -/
def npRandomSeed (seed : ℕ) (_old : RngState) : RngState :=
  RngState.mk seed 0

/-- One scalar draw of `np.random.normal`: reads the stream at the current
position and advances the position. -/
def npNormalDraw (gauss : ℕ → ℕ → ℝ) (g : RngState) : ℝ × RngState :=
  (gauss g.seed g.pos, RngState.mk g.seed (g.pos + 1))

/-- A row of `p` normal draws. -/
def npNormalRow (gauss : ℕ → ℕ → ℝ) : ℕ → RngState → List ℝ × RngState
  | 0, g => ([], g)
  | n + 1, g =>
    let d := npNormalDraw gauss g
    let rest := npNormalRow gauss n d.2
    (d.1 :: rest.1, rest.2)

/-- The `k × p` draw matrix of `np.random.normal(size=(k, p))`. -/
def npNormalMat (gauss : ℕ → ℕ → ℝ) : ℕ → ℕ → RngState → List (List ℝ) × RngState
  | 0, _, g => ([], g)
  | r + 1, p, g =>
    let row := npNormalRow gauss p g
    let rest := npNormalMat gauss r p row.2
    (row.1 :: rest.1, rest.2)

/-- Row normalization `mu / np.linalg.norm(mu, axis=1)[:, np.newaxis]`. -/
def rowNormalize (row : List ℝ) : List ℝ :=
  row.map (fun v => v / Real.sqrt ((row.map (fun w => w * w)).sum))

/-- `random_init` of `watson.py`: unit-normalized Gaussian mean directions,
all concentrations 1, uniform mixing weights `1/k`. -/
def random_init (gauss : ℕ → ℕ → ℝ) (k p : ℕ) (g : RngState) :
    (List (List ℝ) × List ℝ × List ℝ) × RngState :=
  let m := npNormalMat gauss k p g
  ((m.1.map rowNormalize, List.replicate k (1 : ℝ),
    List.replicate k ((1 : ℝ) / (k : ℝ))), m.2)

/-- Mixture parameters carried across EM iterations. -/
structure WParams where
  mu : List (List ℝ)
  kappa : List ℝ
  pi : List ℝ

/-- Parameter trajectory of the EM loop: in the source, `e_step` and
`m_step` read only the data and the current parameters and never touch the
PRNG, so one combined iteration is a deterministic update `step`; the
recorded history is the list of successive parameter snapshots. -/
def emTrajectory (step : WParams → WParams) : ℕ → WParams → List WParams
  | 0, _ => []
  | n + 1, w =>
    let w2 := step w
    w2 :: emTrajectory step n w2

/-- `wmm_fit` with `init="random"` and an explicit seed: seeds the global
PRNG, draws the random initialization, then iterates deterministic EM
steps over the fixed observation set; the value is the per-iteration
parameter history (`Mu`, `Kappa`, `Pi` snapshots). -/
def wmm_fit_random (gauss : ℕ → ℕ → ℝ) (step : WParams → WParams)
    (seed : ℕ) (k p iters : ℕ) (g0 : RngState) : List WParams :=
  let g1 := npRandomSeed seed g0
  let init := random_init gauss k p g1
  emTrajectory step iters (WParams.mk init.1.1 init.1.2.1 init.1.2.2)

/-- C9: two `fit` calls with the same observation set and EM update (the
`step` function), the same `k`, dimensionality, iteration count and seed,
and `init="random"` produce identical parameter trajectories whatever
global PRNG state each call starts from: `np.random.seed(seed)` discards
the inherited state, and all later draws are functions of seed and
position only. -/
theorem wmm_fit_random_reproducible (gauss : ℕ → ℕ → ℝ)
    (step : WParams → WParams) (seed : ℕ) (k p iters : ℕ)
    (g0 g1 : RngState) :
    wmm_fit_random gauss step seed k p iters g0 =
      wmm_fit_random gauss step seed k p iters g1 := rfl
